import Mathlib

/-!
# Concurrent traffic simulation: admission gate, message queue, traffic light

A shallow embedding of `src/Intersection.cpp` and `src/TrafficLight.cpp`.

* Containers (`std::vector`, `std::deque`) are lists, front element first.
* A method that mutates its object is a function returning the new object.
* A call that does not return (a blocked `receive`, a release on an empty
  gate) yields `none`.
* Effects that leave the object (fulfilling a promise, sending a message) are
  returned next to the new state, so that a run can be observed.
* Mutexes, sleeps and console output have no effect on the values computed and
  are left out; one method call is one atomic step.
-/

namespace TrafficSim

/-! ## Machine integers -/

/-- Conversion of a container size (`size_t`) to the C++ `int` returned by
`WaitingVehicles::getSize`: the value reduced modulo `2^32` into the range
`[-2^31, 2^31)` of a 32-bit `int`. -/
def toInt (n : Nat) : Int :=
  if n % 4294967296 < 2147483648 then ((n % 4294967296 : Nat) : Int)
  else ((n % 4294967296 : Nat) : Int) - 4294967296

/-! ## WaitingVehicles (Intersection.cpp, lines 11-43) -/

/-- The two parallel vectors of `WaitingVehicles`. `V` stands for
`std::shared_ptr<Vehicle>` and `P` for `std::promise<void>`; the class
declaration is in `Intersection.h`, the element types are parameters here. -/
structure WaitingVehicles (V P : Type) where
  _vehicles : List V
  _promises : List P
deriving DecidableEq, Repr

/-- What one call of `permitEntryToFirstInQueue` does to the outside world:
`set_value()` is called on `promise`, and `vehicle` is erased. -/
structure Released (V P : Type) where
  promise : P
  vehicle : V
deriving DecidableEq, Repr

namespace WaitingVehicles

variable {V P : Type}

/-- A default-constructed `WaitingVehicles`: both vectors are empty. -/
def empty : WaitingVehicles V P := ⟨[], []⟩

/-- Embeds `int WaitingVehicles::getSize()`: `return _vehicles.size();`. -/
def getSize (w : WaitingVehicles V P) : Int :=
  toInt w._vehicles.length

/-- Embeds `WaitingVehicles::pushBack`: `push_back` on both vectors. -/
def pushBack (w : WaitingVehicles V P) (vehicle : V) (promise : P) : WaitingVehicles V P :=
  { _vehicles := w._vehicles ++ [vehicle], _promises := w._promises ++ [promise] }

/-- Embeds `WaitingVehicles::permitEntryToFirstInQueue`: takes `begin()` of both
vectors, calls `set_value()` on the first promise and erases both front
elements. Dereferencing `begin()` of an empty vector is undefined: `none`. -/
def permitEntryToFirstInQueue (w : WaitingVehicles V P) :
    Option (Released V P × WaitingVehicles V P) :=
  match w._promises, w._vehicles with
  | firstPromise :: promises, firstVehicle :: vehicles =>
      some (⟨firstPromise, firstVehicle⟩, { _vehicles := vehicles, _promises := promises })
  | _, _ => none

/-- The vehicles of `entries` pushed in list order, each with its own promise. -/
def pushAll (w : WaitingVehicles V P) (entries : List (V × P)) : WaitingVehicles V P :=
  entries.foldl (fun acc e => acc.pushBack e.1 e.2) w

/-- The first `k` successive calls of `permitEntryToFirstInQueue`, with the
releases they made in call order; `none` when one of them hits an empty gate. -/
def permitTimes : Nat → WaitingVehicles V P → Option (List (Released V P) × WaitingVehicles V P)
  | 0, w => some ([], w)
  | k + 1, w =>
    match permitEntryToFirstInQueue w with
    | none => none
    | some (r, w1) =>
      match permitTimes k w1 with
      | none => none
      | some (rs, w2) => some (r :: rs, w2)

end WaitingVehicles

/-- One call on a gate, for runs that mix arrivals and releases. -/
inductive GateOp (V P : Type) where
  | pushBack (vehicle : V) (promise : P)
  | permitEntryToFirstInQueue
deriving DecidableEq, Repr

namespace GateOp

variable {V P : Type}

/-- The gate after one call; `none` for a release on an empty gate. -/
def apply (w : WaitingVehicles V P) : GateOp V P → Option (WaitingVehicles V P)
  | pushBack vehicle promise => some (w.pushBack vehicle promise)
  | permitEntryToFirstInQueue => (w.permitEntryToFirstInQueue).map Prod.snd

/-- The gate after a sequence of calls, oldest call first. -/
def run (w : WaitingVehicles V P) : List (GateOp V P) → Option (WaitingVehicles V P)
  | [] => some w
  | op :: ops =>
    match apply w op with
    | none => none
    | some w1 => run w1 ops

/-- Number of `pushBack` calls in a sequence of calls. -/
def pushes : List (GateOp V P) → Nat
  | [] => 0
  | pushBack _ _ :: ops => pushes ops + 1
  | permitEntryToFirstInQueue :: ops => pushes ops

/-- Number of `permitEntryToFirstInQueue` calls in a sequence of calls. -/
def permits : List (GateOp V P) → Nat
  | [] => 0
  | pushBack _ _ :: ops => permits ops
  | permitEntryToFirstInQueue :: ops => permits ops + 1

end GateOp

/-! ## MessageQueue (TrafficLight.cpp, lines 5-36) -/

/-- The phases of a traffic light (`enum class TrafficLightPhase`). -/
inductive TrafficLightPhase where
  | red
  | green
deriving DecidableEq, Repr

/-- The pending messages of `MessageQueue<T>`: the `std::deque<T> _queue`,
front element first. -/
structure MessageQueue (T : Type) where
  _queue : List T
deriving DecidableEq, Repr

namespace MessageQueue

variable {T : Type}

/-- Embeds `MessageQueue<T>::send`: `_queue.push_back(std::move(msg))`. -/
def send (q : MessageQueue T) (msg : T) : MessageQueue T :=
  { _queue := q._queue ++ [msg] }

/-- Embeds `MessageQueue<T>::receive`: waits until `_queue` is not empty, then moves
`_queue.back()` out and calls `pop_back()`. While `_queue` is empty the call
does not return: `none`. -/
def receive (q : MessageQueue T) : Option (T × MessageQueue T) :=
  match q._queue.getLast? with
  | none => none
  | some msg => some (msg, { _queue := q._queue.dropLast })

/-- The values returned by `k` successive `receive()` calls, in call order,
with no `send` in between; `none` when one of the calls blocks. -/
def receiveTimes : Nat → MessageQueue T → Option (List T × MessageQueue T)
  | 0, q => some ([], q)
  | k + 1, q =>
    match receive q with
    | none => none
    | some (msg, q1) =>
      match receiveTimes k q1 with
      | none => none
      | some (msgs, q2) => some (msg :: msgs, q2)

end MessageQueue

/-! ## TrafficLight (TrafficLight.cpp, lines 39-126) -/

/-- The members of `TrafficLight` that the code reads or writes. -/
structure TrafficLight where
  _queueMgr : MessageQueue TrafficLightPhase
  _currentPhase : TrafficLightPhase
deriving DecidableEq, Repr

/-- The local variables of `cycleThroughPhases` that live across iterations:
`cycleDuration` holds the last draw (a whole number of seconds stored in a
`double`), `lastUpdate` the clock reading of the last toggle, in clock ticks. -/
structure CycleLocals where
  cycleDuration : Int
  lastUpdate : Int
deriving DecidableEq, Repr

/-- What one iteration of the loop of `cycleThroughPhases` gets from outside:
the reading of `system_clock::now()` in the elapsed-time test, and, used only
when the light toggles, the next draw of `distribution(generator)` and the
reading of `system_clock::now()` stored in `lastUpdate`. -/
structure Tick where
  now : Int
  draw : Int
  nowAfter : Int
deriving DecidableEq, Repr

namespace TrafficLight

/-- Embeds `TrafficLight::TrafficLight()`: `_currentPhase = red`; the message queue is
default-constructed, so nothing is pending. -/
def new : TrafficLight :=
  { _queueMgr := { _queue := [] }, _currentPhase := TrafficLightPhase.red }

/-- Embeds `TrafficLight::getCurrentPhase`. -/
def getCurrentPhase (l : TrafficLight) : TrafficLightPhase :=
  l._currentPhase

/-- Embeds `TrafficLight::waitForGreen`, run on the values that its successive
`_queueMgr.receive()` calls return (`received`, first call first). It returns
at the first value equal to `green`; the result is the list of values it
received up to and including that one, and the values it did not ask for.
When `received` runs out the loop is inside a `receive()` that has not
returned: `none`. -/
def waitForGreen : List TrafficLightPhase → Option (List TrafficLightPhase × List TrafficLightPhase)
  | [] => none
  | currentPhase :: later =>
    if currentPhase = TrafficLightPhase.green then some ([currentPhase], later)
    else
      match waitForGreen later with
      | none => none
      | some (seen, rest) => some (currentPhase :: seen, rest)

/-- The `//Toggle` branch of `cycleThroughPhases`. -/
def toggle (l : TrafficLight) : TrafficLight :=
  if l._currentPhase = TrafficLightPhase.red then
    { l with _currentPhase := TrafficLightPhase.green }
  else
    { l with _currentPhase := TrafficLightPhase.red }

/-- One iteration of the `while (true)` loop of `cycleThroughPhases`.
`ticksPerSecond` is the period of `system_clock`; `duration_cast<seconds>`
truncates toward zero. The third component is the value passed to
`_queueMgr.send` in this iteration, if any. -/
def cycleIteration (ticksPerSecond : Int) (l : TrafficLight) (c : CycleLocals) (t : Tick) :
    TrafficLight × CycleLocals × Option TrafficLightPhase :=
  let timeSinceLastUpdate := Int.tdiv (t.now - c.lastUpdate) ticksPerSecond
  if timeSinceLastUpdate ≥ c.cycleDuration then
    let l1 := toggle l
    let phase := l1._currentPhase
    let l2 := { l1 with _queueMgr := l1._queueMgr.send phase }
    (l2, { cycleDuration := t.draw, lastUpdate := t.nowAfter }, some phase)
  else
    (l, c, none)

/-- The loop of `cycleThroughPhases` run for one iteration per element of
`ticks`, from the light `l` and the locals `c`. Returns the light, the locals
and the values passed to `_queueMgr.send`, oldest first. -/
def cycleLoop (ticksPerSecond : Int) :
    TrafficLight → CycleLocals → List Tick → TrafficLight × CycleLocals × List TrafficLightPhase
  | l, c, [] => (l, c, [])
  | l, c, t :: ticks =>
    match cycleIteration ticksPerSecond l c t with
    | (l1, c1, sent) =>
      match cycleLoop ticksPerSecond l1 c1 ticks with
      | (l2, c2, later) => (l2, c2, sent.toList ++ later)

/-- Embeds `TrafficLight::cycleThroughPhases` up to the end of the iteration that
consumes the last element of `ticks`: the first draw and the first clock
reading initialise the locals, then the loop runs. -/
def cycleThroughPhases (ticksPerSecond : Int) (l : TrafficLight) (firstDraw start : Int)
    (ticks : List Tick) : TrafficLight × CycleLocals × List TrafficLightPhase :=
  cycleLoop ticksPerSecond l { cycleDuration := firstDraw, lastUpdate := start } ticks

end TrafficLight

/-! ## Intersection (Intersection.cpp, lines 45-170) -/

/-- Modelled from the spec: the class `Street` (declared in `Street.h`), "an
identity-bearing value; the core only compares identities". `_id` is the
identifier that `getID()` returns. -/
structure Street where
  _id : Int
deriving DecidableEq, Repr

/-- Modelled from the spec: `getID()` of a street (defined in
`TrafficObject`), the readable identifier of the object. -/
def Street.getID (s : Street) : Int := s._id

/-- The members of `Intersection` that the code reads or writes. -/
structure Intersection (V P : Type) where
  _streets : List Street
  _waitingVehicles : WaitingVehicles V P
  _trafficLight : TrafficLight
  _isBlocked : Bool
deriving DecidableEq, Repr

/-- What the loop at the end of `addVehicleToQueue` has done when it returns:
`phasesRead` holds every result of `getCurrentPhase()` in call order, `waits`
holds, for each `waitForGreen()` call in call order, the values that call
received, and `unreceived` the values no `receive()` has asked for. -/
structure Entry where
  phasesRead : List TrafficLightPhase
  waits : List (List TrafficLightPhase)
  unreceived : List TrafficLightPhase
deriving DecidableEq, Repr

namespace Intersection

variable {V P : Type}

/-- Embeds `Intersection::Intersection()`: `_isBlocked = false`; the other members
are default-constructed. -/
def new : Intersection V P :=
  { _streets := [], _waitingVehicles := WaitingVehicles.empty,
    _trafficLight := TrafficLight.new, _isBlocked := false }

/-- Embeds `Intersection::addStreet`. -/
def addStreet (i : Intersection V P) (street : Street) : Intersection V P :=
  { i with _streets := i._streets ++ [street] }

/-- Embeds `Intersection::queryStreets`: the range-for loop over `_streets` that
pushes every street with another ID onto `outgoings`. The method is not
`const`, so the intersection after the call is returned as well. -/
def queryStreets (i : Intersection V P) (incoming : Street) : List Street × Intersection V P :=
  let outgoings := i._streets.foldl
    (fun (outgoings : List Street) (it : Street) =>
      if incoming.getID ≠ it.getID then outgoings ++ [it] else outgoings) []
  (outgoings, i)

/-- The streets of `streets` added one by one with `addStreet`, in list order. -/
def addStreets (i : Intersection V P) (streets : List Street) : Intersection V P :=
  streets.foldl addStreet i

/-- Embeds `Intersection::setIsBlocked`. -/
def setIsBlocked (i : Intersection V P) (isBlocked : Bool) : Intersection V P :=
  { i with _isBlocked := isBlocked }

/-- Embeds `Intersection::vehicleHasLeft`: `this->setIsBlocked(false)`; the vehicle
passed in is not looked at. -/
def vehicleHasLeft (i : Intersection V P) (_vehicle : V) : Intersection V P :=
  i.setIsBlocked false

/-- The first part of `Intersection::addVehicleToQueue` (lines 82-84): the
vehicle and its promise are appended to the waiting line. -/
def addVehicleToQueue_enqueue (i : Intersection V P) (vehicle : V) (prmsVehicleAllowedToEnter : P) :
    Intersection V P :=
  { i with _waitingVehicles := i._waitingVehicles.pushBack vehicle prmsVehicleAllowedToEnter }

/-- The last part of `Intersection::addVehicleToQueue` (lines 103-112), entered
once `ftrVehicleAllowedToEnter.wait()` has returned:
`while (getCurrentPhase() != green) waitForGreen();`.
`reads` are the values successive `getCurrentPhase()` calls return, `received`
the values successive `receive()` calls inside `waitForGreen` return. Each
`waitForGreen()` call is run on the values not yet received and hands the
remaining ones to the next call. `none` when the function has not returned on
these values. -/
def addVehicleToQueue_awaitGreen :
    List TrafficLightPhase → List TrafficLightPhase → Option Entry
  | [], _ => none
  | phase :: reads, received =>
    if phase ≠ TrafficLightPhase.green then
      match TrafficLight.waitForGreen received with
      | none => none
      | some (seen, rest) =>
        match addVehicleToQueue_awaitGreen reads rest with
        | none => none
        | some e =>
          some { phasesRead := phase :: e.phasesRead, waits := seen :: e.waits,
                 unreceived := e.unreceived }
    else some { phasesRead := [phase], waits := [], unreceived := received }

/-- The test of the admission loop: `_waitingVehicles.getSize() > 0 && !_isBlocked`. -/
def admits (i : Intersection V P) : Bool :=
  decide (i._waitingVehicles.getSize > 0) && !i._isBlocked

/-- One iteration of the `while (true)` loop of `Intersection::processVehicleQueue`.
The first component is the release made by `permitEntryToFirstInQueue` in this
iteration, if it was called; `none` when that call is made on an empty gate. -/
def processVehicleQueue (i : Intersection V P) :
    Option (Option (Released V P) × Intersection V P) :=
  if i.admits then
    let i1 := i.setIsBlocked true
    match i1._waitingVehicles.permitEntryToFirstInQueue with
    | none => none
    | some (r, w) => some (some r, { i1 with _waitingVehicles := w })
  else
    some (none, i)

end Intersection

/-! ## Runs of an intersection -/

/-- The calls that change the admission state of an intersection. -/
inductive Step (V P : Type) where
  | pushBack (vehicle : V) (promise : P)
  | processVehicleQueue
  | vehicleHasLeft (vehicle : V)
deriving DecidableEq, Repr

/-- What a run has done so far, as far as occupancy is concerned. -/
inductive Event (V P : Type) where
  | released (r : Released V P)
  | left (vehicle : V)
deriving DecidableEq, Repr

/-- An intersection together with the record of releases and departures,
oldest first. The record is not read by any step. -/
structure Sim (V P : Type) where
  inter : Intersection V P
  log : List (Event V P)
deriving DecidableEq, Repr

namespace Sim

variable {V P : Type}

/-- A newly constructed intersection, nothing recorded. -/
def init : Sim V P := { inter := Intersection.new, log := [] }

/-- One call applied to the intersection. -/
def step (s : Sim V P) : Step V P → Option (Sim V P)
  | Step.pushBack vehicle promise =>
      some { s with inter := s.inter.addVehicleToQueue_enqueue vehicle promise }
  | Step.processVehicleQueue =>
      match s.inter.processVehicleQueue with
      | none => none
      | some out => some { inter := out.2, log := s.log ++ out.1.toList.map Event.released }
  | Step.vehicleHasLeft vehicle =>
      some { inter := s.inter.vehicleHasLeft vehicle, log := s.log ++ [Event.left vehicle] }

/-- A sequence of calls, oldest first. -/
def run (s : Sim V P) : List (Step V P) → Option (Sim V P)
  | [] => some s
  | st :: steps =>
    match step s st with
    | none => none
    | some s1 => run s1 steps

/-- Both vectors of the gate have the same length. -/
def Paired (s : Sim V P) : Prop :=
  s.inter._waitingVehicles._vehicles.length = s.inter._waitingVehicles._promises.length

/-- The vehicles that have been released and have not had `vehicleHasLeft`
called for them since, in release order. -/
def inFlight [DecidableEq V] (log : List (Event V P)) : List V :=
  log.foldl
    (fun (acc : List V) (e : Event V P) =>
      match e with
      | Event.released r => acc ++ [r.vehicle]
      | Event.left vehicle => acc.filter (fun v => decide (v ≠ vehicle)))
    []

/-- The flag `_isBlocked` is set exactly when one vehicle is in flight, and
no more than one is. -/
def Occupied [DecidableEq V] (s : Sim V P) : Prop :=
  (s.inter._isBlocked = false ∧ inFlight s.log = []) ∨
  (s.inter._isBlocked = true ∧ ∃ v, inFlight s.log = [v])

/-- Every `vehicleHasLeft` of the run is called for a vehicle that is in
flight at that moment (released, and not reported as having left since). -/
def leavesInFlight [DecidableEq V] (s : Sim V P) : List (Step V P) → Bool
  | [] => true
  | st :: steps =>
    (match st with
      | Step.vehicleHasLeft vehicle => decide (vehicle ∈ inFlight s.log)
      | _ => true) &&
    (match step s st with
      | none => true
      | some s1 => leavesInFlight s1 steps)

end Sim

/-! ## Lemmas on the gate -/

section GateLemmas

variable {V P : Type}

open WaitingVehicles

theorem pushAll_vehicles (w : WaitingVehicles V P) (entries : List (V × P)) :
    (pushAll w entries)._vehicles = w._vehicles ++ entries.map Prod.fst := by
  induction entries generalizing w with
  | nil => simp [pushAll]
  | cons e es ih =>
    have h := ih (w.pushBack e.1 e.2)
    simp only [pushAll, List.foldl_cons] at h ⊢
    rw [h]
    simp [pushBack]

theorem pushAll_promises (w : WaitingVehicles V P) (entries : List (V × P)) :
    (pushAll w entries)._promises = w._promises ++ entries.map Prod.snd := by
  induction entries generalizing w with
  | nil => simp [pushAll]
  | cons e es ih =>
    have h := ih (w.pushBack e.1 e.2)
    simp only [pushAll, List.foldl_cons] at h ⊢
    rw [h]
    simp [pushBack]

/-- A gate holding exactly the vehicles and promises of `entries`. -/
theorem pushAll_empty (entries : List (V × P)) :
    pushAll (empty : WaitingVehicles V P) entries
      = ⟨entries.map Prod.fst, entries.map Prod.snd⟩ := by
  have h1 := pushAll_vehicles (empty : WaitingVehicles V P) entries
  have h2 := pushAll_promises (empty : WaitingVehicles V P) entries
  cases h : pushAll (empty : WaitingVehicles V P) entries with
  | mk vs ps =>
    rw [h] at h1 h2
    simp [empty] at h1 h2
    simp [h1, h2]

/-- Releasing `k` times from a gate built from `pre ++ post` with
`pre.length = k` releases `pre` in order and leaves `post`. -/
theorem permitTimes_entries (pre post : List (V × P)) :
    permitTimes pre.length
        (⟨(pre ++ post).map Prod.fst, (pre ++ post).map Prod.snd⟩ : WaitingVehicles V P)
      = some (pre.map (fun e => (⟨e.2, e.1⟩ : Released V P)),
          ⟨post.map Prod.fst, post.map Prod.snd⟩) := by
  induction pre with
  | nil => simp [permitTimes]
  | cons e es ih =>
    simp only [List.length_cons, permitTimes, permitEntryToFirstInQueue, List.cons_append,
      List.map_cons]
    rw [ih]

end GateLemmas

theorem toInt_of_lt (n : Nat) (h : n < 2147483648) : toInt n = (n : Int) := by
  have hm : n % 4294967296 = n := Nat.mod_eq_of_lt (by omega)
  simp only [toInt, hm, h, if_true]

theorem toInt_pos_imp (n : Nat) (h : toInt n > 0) : 0 < n := by
  rcases Nat.eq_zero_or_pos n with h0 | h0
  · subst h0
    simp [toInt] at h
  · exact h0

section GateRuns

variable {V P : Type}

open WaitingVehicles

theorem WaitingVehicles.permit_cons (v : V) (vs : List V) (p : P) (ps : List P) :
    permitEntryToFirstInQueue (⟨v :: vs, p :: ps⟩ : WaitingVehicles V P)
      = some (⟨p, v⟩, ⟨vs, ps⟩) := rfl

theorem WaitingVehicles.permit_some (w : WaitingVehicles V P) (r : Released V P)
    (w1 : WaitingVehicles V P) (h : permitEntryToFirstInQueue w = some (r, w1)) :
    w._vehicles = r.vehicle :: w1._vehicles ∧ w._promises = r.promise :: w1._promises := by
  obtain ⟨vs, ps⟩ := w
  cases vs with
  | nil => cases ps <;> simp [permitEntryToFirstInQueue] at h
  | cons v vs =>
    cases ps with
    | nil => simp [permitEntryToFirstInQueue] at h
    | cons p ps =>
      simp only [WaitingVehicles.permit_cons, Option.some.injEq, Prod.mk.injEq] at h
      obtain ⟨h1, h2⟩ := h
      subst h1 h2
      exact ⟨rfl, rfl⟩

/-- Every successful run keeps the balance: entries left plus releases made
equals entries present at the start plus arrivals. -/
theorem GateOp.run_balance (ops : List (GateOp V P)) (w w1 : WaitingVehicles V P)
    (h : GateOp.run w ops = some w1) :
    w1._vehicles.length + GateOp.permits ops = w._vehicles.length + GateOp.pushes ops := by
  induction ops generalizing w with
  | nil =>
    simp [GateOp.run] at h
    subst h
    simp [GateOp.permits, GateOp.pushes]
  | cons op ops ih =>
    cases op with
    | pushBack v p =>
      simp only [GateOp.run, GateOp.apply] at h
      have := ih _ h
      simp only [WaitingVehicles.pushBack, List.length_append, List.length_singleton] at this
      simp only [GateOp.permits, GateOp.pushes]
      omega
    | permitEntryToFirstInQueue =>
      simp only [GateOp.run, GateOp.apply] at h
      cases hp : w.permitEntryToFirstInQueue with
      | none => simp [hp] at h
      | some rw =>
        obtain ⟨r, w2⟩ := rw
        simp only [hp, Option.map_some'] at h
        have := ih _ h
        have hv := (WaitingVehicles.permit_some w r w2 hp).1
        simp only [GateOp.permits, GateOp.pushes, hv, List.length_cons] at this ⊢
        omega

/-- A run of arrivals only always succeeds. -/
theorem GateOp.run_replicate_pushBack (n : Nat) (v : V) (p : P) (w : WaitingVehicles V P) :
    ∃ w1, GateOp.run w (List.replicate n (GateOp.pushBack v p)) = some w1 := by
  induction n generalizing w with
  | zero => exact ⟨w, rfl⟩
  | succ n ih =>
    obtain ⟨w1, h1⟩ := ih (w.pushBack v p)
    exact ⟨w1, by simpa [List.replicate_succ, GateOp.run, GateOp.apply] using h1⟩

theorem GateOp.pushes_replicate_pushBack (n : Nat) (v : V) (p : P) :
    GateOp.pushes (List.replicate n (GateOp.pushBack v p)) = n := by
  induction n with
  | zero => rfl
  | succ n ih => simp [List.replicate_succ, GateOp.pushes, ih]

theorem GateOp.permits_replicate_pushBack (n : Nat) (v : V) (p : P) :
    GateOp.permits (List.replicate n (GateOp.pushBack v p)) = 0 := by
  induction n with
  | zero => rfl
  | succ n ih => simp [List.replicate_succ, GateOp.permits, ih]

end GateRuns

section MessageQueueLemmas

variable {T : Type}

open MessageQueue

theorem MessageQueue.receive_send (q : MessageQueue T) (msg : T) :
    receive (q.send msg) = some (msg, q) := by
  simp [receive, send]

theorem MessageQueue.receive_nil : receive ({ _queue := [] } : MessageQueue T) = none := rfl

end MessageQueueLemmas

section WaitLemmas

open TrafficLight TrafficLightPhase

theorem TrafficLight.waitForGreen_some (received : List TrafficLightPhase)
    (seen rest : List TrafficLightPhase) :
    waitForGreen received = some (seen, rest) ↔
      ∃ reds, (∀ x ∈ reds, x = red) ∧ seen = reds ++ [green] ∧ received = seen ++ rest := by
  induction received generalizing seen with
  | nil =>
    simp only [waitForGreen]
    constructor
    · intro h; cases h
    · rintro ⟨reds, _, h1, h2⟩
      subst h1
      simp at h2
  | cons x xs ih =>
    cases x with
    | green =>
      simp only [waitForGreen, if_true, Option.some.injEq, Prod.mk.injEq]
      constructor
      · rintro ⟨h1, h2⟩
        exact ⟨[], by simp, by simp [h1], by simp [← h1, h2]⟩
      · rintro ⟨reds, hr, h1, h2⟩
        cases reds with
        | nil =>
          subst h1
          simp at h2
          simp [h2]
        | cons r rs =>
          subst h1
          simp at h2
          have := hr r (by simp)
          rw [← h2.1] at this
          cases this
    | red =>
      simp only [waitForGreen]
      constructor
      · intro h
        cases hw : waitForGreen xs with
        | none => simp [hw] at h
        | some pr =>
          obtain ⟨seen1, rest1⟩ := pr
          simp [hw] at h
          obtain ⟨h1, h2⟩ := h
          subst h1 h2
          obtain ⟨reds, hr, e1, e2⟩ := (ih seen1).1 hw
          refine ⟨red :: reds, ?_, by simp [e1], by simp [e2]⟩
          intro x hx
          rcases List.mem_cons.1 hx with h | h
          · exact h
          · exact hr x h
      · rintro ⟨reds, hr, h1, h2⟩
        cases reds with
        | nil =>
          subst h1
          simp at h2
        | cons r rs =>
          subst h1
          simp at h2
          have hw : waitForGreen xs = some (rs ++ [green], rest) :=
            (ih (rs ++ [green])).2 ⟨rs, fun x hx => hr x (List.mem_cons_of_mem _ hx), rfl, by simp [h2.2]⟩
          simp [hw, ← h2.1]

theorem TrafficLight.waitForGreen_none (received : List TrafficLightPhase) :
    waitForGreen received = none ↔ ∀ x ∈ received, x = red := by
  induction received with
  | nil => simp [waitForGreen]
  | cons x xs ih =>
    cases x with
    | green => simp [waitForGreen]
    | red =>
      simp only [waitForGreen]
      cases hw : waitForGreen xs with
      | none =>
        have := ih.1 hw
        simpa using this
      | some pr =>
        have : ¬ ∀ x ∈ xs, x = red := fun h => by
          have := ih.2 h
          rw [hw] at this
          cases this
        simpa using this

end WaitLemmas

section StreetLemmas

variable {V P : Type}

open Intersection

theorem Intersection.addStreets_streets (i : Intersection V P) (streets : List Street) :
    (i.addStreets streets)._streets = i._streets ++ streets := by
  induction streets generalizing i with
  | nil => simp [addStreets]
  | cons s ss ih =>
    have := ih (i.addStreet s)
    simp only [addStreets, List.foldl_cons] at this ⊢
    rw [this]
    simp [addStreet]

theorem Intersection.queryLoop_eq_filter (incoming : Street) (streets acc : List Street) :
    streets.foldl
        (fun (outgoings : List Street) (it : Street) =>
          if incoming.getID ≠ it.getID then outgoings ++ [it] else outgoings) acc
      = acc ++ streets.filter (fun it => decide (it.getID ≠ incoming.getID)) := by
  induction streets generalizing acc with
  | nil => simp
  | cons s ss ih =>
    simp only [List.foldl_cons]
    rw [ih]
    by_cases h : incoming.getID = s.getID
    · simp [h]
    · have h2 : ¬ s.getID = incoming.getID := fun e => h e.symm
      simp [h, h2, List.filter_cons]

end StreetLemmas

/-! ## The claims on the gate -/

section GateClaims

variable {V P : Type}

open WaitingVehicles

/-- C1 (FIFO release). Let `entries` be the vehicles pushed onto an empty
`WaitingVehicles` in list order, each with its own promise, and let
`k < entries.length`. The first `k` calls of `permitEntryToFirstInQueue`
succeed and release the first `k` entries in order; the gate then holds the
vehicles from position `k` on; the next call fulfils exactly the promise
pushed with the vehicle at position `k` and erases exactly that vehicle,
leaving the later entries untouched. Releasing as many times as there are
entries signals all of them in push order and empties the gate. -/
theorem C1_fifo_release (entries : List (V × P)) (k : Nat) (hk : k < entries.length) :
    ∃ w : WaitingVehicles V P,
      permitTimes k (pushAll empty entries)
        = some ((entries.take k).map (fun e => (⟨e.2, e.1⟩ : Released V P)), w) ∧
      w._vehicles = (entries.drop k).map Prod.fst ∧
      permitEntryToFirstInQueue w
        = some (⟨(entries.get ⟨k, hk⟩).2, (entries.get ⟨k, hk⟩).1⟩,
            ⟨(entries.drop (k + 1)).map Prod.fst, (entries.drop (k + 1)).map Prod.snd⟩) ∧
      permitTimes entries.length (pushAll empty entries)
        = some (entries.map (fun e => (⟨e.2, e.1⟩ : Released V P)), empty) := by
  refine ⟨⟨(entries.drop k).map Prod.fst, (entries.drop k).map Prod.snd⟩, ?_, rfl, ?_, ?_⟩
  · have h := permitTimes_entries (entries.take k) (entries.drop k)
    rw [List.take_append_drop, List.length_take, Nat.min_eq_left (Nat.le_of_lt hk)] at h
    rw [pushAll_empty]
    exact h
  · have hd : entries.drop k = entries.get ⟨k, hk⟩ :: entries.drop (k + 1) := by
      simp
    rw [hd]
    rfl
  · have h := permitTimes_entries entries ([] : List (V × P))
    rw [List.append_nil] at h
    rw [pushAll_empty]
    exact h

/-- Witness of C1: three vehicles 10, 20, 30 with promises 1, 2, 3; the
second release fulfils promise 2 and erases vehicle 20. -/
theorem C1_fifo_release_witness :
    ∃ w : WaitingVehicles Nat Nat,
      permitTimes 1 (pushAll empty [(10, 1), (20, 2), (30, 3)]) = some ([⟨1, 10⟩], w) ∧
      w._vehicles = [20, 30] ∧
      permitEntryToFirstInQueue w = some (⟨2, 20⟩, ⟨[30], [3]⟩) ∧
      permitTimes 3 (pushAll empty [(10, 1), (20, 2), (30, 3)])
        = some ([⟨1, 10⟩, ⟨2, 20⟩, ⟨3, 30⟩], empty) :=
  C1_fifo_release [(10, 1), (20, 2), (30, 3)] 1 (by decide)

/-- C8 (gate size), as the code has it. For every sequence of calls applied to
an empty `WaitingVehicles` in which every release succeeds, with `n` pushes
and `k` releases: `k ≤ n`, `n - k` entries are left, `getSize()` returns
`n - k` converted to `int`, which is `n - k` itself whenever `n - k < 2^31`,
and `0` when `n = k`. -/
theorem C8_gate_size (ops : List (GateOp V P)) (w : WaitingVehicles V P)
    (h : GateOp.run empty ops = some w) :
    GateOp.permits ops ≤ GateOp.pushes ops ∧
    w._vehicles.length = GateOp.pushes ops - GateOp.permits ops ∧
    w.getSize = toInt (GateOp.pushes ops - GateOp.permits ops) ∧
    (GateOp.pushes ops - GateOp.permits ops < 2147483648 →
      w.getSize = ((GateOp.pushes ops - GateOp.permits ops : Nat) : Int)) ∧
    (GateOp.pushes ops = GateOp.permits ops → w.getSize = 0) := by
  have hb := GateOp.run_balance ops empty w h
  simp only [empty, List.length_nil, Nat.zero_add] at hb
  have hlen : w._vehicles.length = GateOp.pushes ops - GateOp.permits ops := by omega
  refine ⟨by omega, hlen, by rw [getSize, hlen], ?_, ?_⟩
  · intro hlt
    rw [getSize, hlen]
    exact toInt_of_lt _ hlt
  · intro he
    rw [getSize, hlen, he, Nat.sub_self]
    rfl

/-- Witness of C8: push, push, release, push, release leaves one entry. -/
theorem C8_gate_size_witness :
    GateOp.run (empty : WaitingVehicles Nat Nat)
        [GateOp.pushBack 10 1, GateOp.pushBack 20 2, GateOp.permitEntryToFirstInQueue,
          GateOp.pushBack 30 3, GateOp.permitEntryToFirstInQueue]
      = some ⟨[30], [3]⟩ ∧
    (⟨[30], [3]⟩ : WaitingVehicles Nat Nat).getSize = 1 :=
  ⟨rfl,
    ((C8_gate_size
      [GateOp.pushBack 10 1, GateOp.pushBack 20 2, GateOp.permitEntryToFirstInQueue,
        GateOp.pushBack 30 3, GateOp.permitEntryToFirstInQueue]
      (⟨[30], [3]⟩ : WaitingVehicles Nat Nat) rfl).2.2.2.1 (by decide))⟩

/-- C8 fails as stated: after `2^31` pushes and no release the gate holds
`2^31` entries, and `getSize()` returns `-2^31`, not `2^31`. -/
theorem C8_counterexample :
    ∃ w : WaitingVehicles Nat Nat,
      GateOp.run empty (List.replicate 2147483648 (GateOp.pushBack 0 0)) = some w ∧
      w._vehicles.length = 2147483648 ∧
      w.getSize = -2147483648 ∧
      w.getSize ≠
        ((GateOp.pushes (List.replicate 2147483648 (GateOp.pushBack (0 : Nat) (0 : Nat)))
          - GateOp.permits (List.replicate 2147483648 (GateOp.pushBack (0 : Nat) (0 : Nat))) : Nat)
          : Int) := by
  obtain ⟨w, hw⟩ := GateOp.run_replicate_pushBack 2147483648 (0 : Nat) (0 : Nat) empty
  have hb := GateOp.run_balance _ _ _ hw
  rw [GateOp.pushes_replicate_pushBack, GateOp.permits_replicate_pushBack] at hb
  simp only [empty, List.length_nil, Nat.zero_add, Nat.add_zero] at hb
  have hs : w.getSize = -2147483648 := by
    rw [getSize, hb, toInt]
    norm_num
  refine ⟨w, hw, hb, hs, ?_⟩
  rw [hs, GateOp.pushes_replicate_pushBack, GateOp.permits_replicate_pushBack]
  norm_num

end GateClaims

/-! ## The claims on the message queue and the light -/

section ChannelClaims

open MessageQueue TrafficLight TrafficLightPhase

/-- C6 (channel removal order). On a queue with pending values `receive()`
returns the last element of `_queue`, the one appended by the latest `send`,
and leaves the elements before it as they were, in their order; right after
`send msg` it returns `msg` and restores the queue as it was before the send;
on an empty queue it does not return a value. -/
theorem C6_receive_takes_latest {T : Type} (q : MessageQueue T) (h : q._queue ≠ []) :
    (∃ older msg, q._queue = older ++ [msg] ∧ q.receive = some (msg, { _queue := older })) ∧
    (∀ msg, (q.send msg).receive = some (msg, q)) ∧
    ({ _queue := [] } : MessageQueue T).receive = none := by
  refine ⟨?_, fun msg => MessageQueue.receive_send q msg, rfl⟩
  have hq : q._queue = q._queue.dropLast ++ [q._queue.getLast h] :=
    (List.dropLast_append_getLast h).symm
  generalize q._queue.dropLast = older at hq
  generalize q._queue.getLast h = msg at hq
  exact ⟨older, msg, hq, by simp [receive, hq]⟩

/-- Witness of C6: with `red` sent before `green`, `receive()` returns `green`
and leaves `red`. -/
theorem C6_receive_takes_latest_witness :
    (∃ older msg, ([red, green] : List TrafficLightPhase) = older ++ [msg] ∧
      ({ _queue := [red, green] } : MessageQueue TrafficLightPhase).receive
        = some (msg, { _queue := older })) ∧
    (∀ msg, (({ _queue := [red, green] } : MessageQueue TrafficLightPhase).send msg).receive
        = some (msg, { _queue := [red, green] })) ∧
    ({ _queue := [] } : MessageQueue TrafficLightPhase).receive = none :=
  C6_receive_takes_latest { _queue := [red, green] } (by decide)

/-- C4 (waitForGreen). For every sequence `received` of values returned by
successive `receive()` calls: `waitForGreen` returns having received `seen`
and left `rest` exactly when `seen` is a run of `red` values followed by one
`green` and `received = seen ++ rest`, so it returns at the first `green` and
has discarded only `red` values; and it does not return exactly when every
value received is `red`. -/
theorem C4_waitForGreen (received : List TrafficLightPhase) :
    (∀ seen rest, waitForGreen received = some (seen, rest) ↔
      ∃ reds, (∀ x ∈ reds, x = red) ∧ seen = reds ++ [green] ∧ received = seen ++ rest) ∧
    (waitForGreen received = none ↔ ∀ x ∈ received, x = red) :=
  ⟨fun seen rest => TrafficLight.waitForGreen_some received seen rest,
    TrafficLight.waitForGreen_none received⟩

end ChannelClaims

/-! ## The claim on the streets -/

section StreetClaims

variable {V P : Type}

open Intersection

/-- C9 (queryStreets filter). For every list of streets added with `addStreet`
to a new intersection and every incoming street, `queryStreets(incoming)`
returns exactly the added streets whose ID differs from the ID of `incoming`,
in the order they were added, and the intersection is unchanged, with
`_streets` equal to the list added. -/
theorem C9_queryStreets_filter (streets : List Street) (incoming : Street) :
    queryStreets ((new : Intersection V P).addStreets streets) incoming
      = (streets.filter (fun it => decide (it.getID ≠ incoming.getID)),
          (new : Intersection V P).addStreets streets) ∧
    ((new : Intersection V P).addStreets streets)._streets = streets := by
  have hs : ((new : Intersection V P).addStreets streets)._streets = streets := by
    rw [Intersection.addStreets_streets]
    simp [new]
  refine ⟨?_, hs⟩
  simp only [queryStreets, hs]
  rw [Intersection.queryLoop_eq_filter]
  simp

end StreetClaims

/-! ## The oscillator -/

section CycleLemmas

open MessageQueue TrafficLight TrafficLightPhase

theorem TrafficLight.toggle_phase_ne (l : TrafficLight) :
    l._currentPhase ≠ (toggle l)._currentPhase := by
  obtain ⟨q, ph⟩ := l
  cases ph <;> simp [toggle]

theorem TrafficLight.toggle_queue (l : TrafficLight) : (toggle l)._queueMgr = l._queueMgr := by
  obtain ⟨q, ph⟩ := l
  cases ph <;> simp [toggle]

/-- One iteration either leaves the light alone and sends nothing, or moves
it to a phase different from the current one and sends exactly that phase. -/
theorem TrafficLight.cycleIteration_cases (tps : Int) (l : TrafficLight) (c : CycleLocals)
    (t : Tick) :
    ((cycleIteration tps l c t).1 = l ∧ (cycleIteration tps l c t).2.2 = none) ∨
    (l._currentPhase ≠ (cycleIteration tps l c t).1._currentPhase ∧
      (cycleIteration tps l c t).2.2 = some (cycleIteration tps l c t).1._currentPhase ∧
      (cycleIteration tps l c t).1._queueMgr._queue
        = l._queueMgr._queue ++ [(cycleIteration tps l c t).1._currentPhase]) := by
  simp only [cycleIteration]
  split_ifs with h
  · right
    refine ⟨TrafficLight.toggle_phase_ne l, rfl, ?_⟩
    simp [send, TrafficLight.toggle_queue]
  · left
    exact ⟨rfl, rfl⟩

/-- The values sent by the loop form a chain of unequal neighbours that starts
from the phase the light had; the light ends in the last of them; the queue
grows by exactly the values sent. -/
theorem TrafficLight.cycleLoop_sent (tps : Int) (l : TrafficLight) (c : CycleLocals)
    (ticks : List Tick) :
    List.Chain (fun a b => a ≠ b) l._currentPhase (cycleLoop tps l c ticks).2.2 ∧
    (cycleLoop tps l c ticks).1._currentPhase
      = (cycleLoop tps l c ticks).2.2.getLastD l._currentPhase ∧
    (cycleLoop tps l c ticks).1._queueMgr._queue
      = l._queueMgr._queue ++ (cycleLoop tps l c ticks).2.2 := by
  induction ticks generalizing l c with
  | nil => simp [cycleLoop]
  | cons t ticks ih =>
    have hc := TrafficLight.cycleIteration_cases tps l c t
    simp only [cycleLoop]
    generalize cycleIteration tps l c t = r at hc ⊢
    obtain ⟨l1, c1, s1⟩ := r
    have hi := ih l1 c1
    generalize cycleLoop tps l1 c1 ticks = r2 at hi ⊢
    obtain ⟨l2, c2, later⟩ := r2
    simp only at hc hi ⊢
    rcases hc with ⟨h1, h2⟩ | ⟨h1, h2, h3⟩
    · subst h1 h2
      simpa [Option.toList] using hi
    · subst h2
      obtain ⟨i1, i2, i3⟩ := hi
      refine ⟨List.Chain.cons h1 i1, ?_, ?_⟩
      · rw [i2]
        show later.getLastD l1._currentPhase
          = (l1._currentPhase :: later).getLastD l._currentPhase
        rw [List.getLastD_cons]
      · rw [i3, h3]
        simp [Option.toList]

theorem chain_ne_length_two (sent : List TrafficLightPhase)
    (hc : List.Chain (fun a b => a ≠ b) red sent) (hl : sent.length = 2) :
    sent = [green, red] := by
  match sent, hl with
  | [a, b], _ =>
    simp only [List.chain_cons, List.Chain.nil, and_true] at hc
    obtain ⟨h1, h2⟩ := hc
    cases a <;> cases b <;> simp_all

end CycleLemmas

section CycleClaims

open MessageQueue TrafficLight TrafficLightPhase

/-- C3 (alternation). For every run of `cycleThroughPhases` on a newly
constructed `TrafficLight`, whatever the clock readings and the draws, no two
consecutive values passed to `MessageQueue::send` are equal, and the first
value sent, if any, is not `red`. -/
theorem C3_alternation (ticksPerSecond firstDraw start : Int) (ticks : List Tick) :
    List.Chain' (fun a b => a ≠ b)
      (cycleThroughPhases ticksPerSecond TrafficLight.new firstDraw start ticks).2.2 ∧
    (cycleThroughPhases ticksPerSecond TrafficLight.new firstDraw start ticks).2.2.head?
      ≠ some red := by
  have h := (TrafficLight.cycleLoop_sent ticksPerSecond TrafficLight.new
    { cycleDuration := firstDraw, lastUpdate := start } ticks).1
  unfold cycleThroughPhases
  generalize (cycleLoop ticksPerSecond TrafficLight.new
    { cycleDuration := firstDraw, lastUpdate := start } ticks).2.2 = sent at h
  refine ⟨?_, ?_⟩
  · cases sent with
    | nil => exact List.chain'_nil
    | cons a as => exact (List.chain_cons.1 h).2
  · cases sent with
    | nil => simp
    | cons a as =>
      have := (List.chain_cons.1 h).1
      simp only [TrafficLight.new] at this
      simp only [List.head?_cons, ne_eq, Option.some.injEq]
      exact fun e => this e.symm

/-- C5 (Scenario A), as the code has it. Start from a newly constructed
`TrafficLight` and run `cycleThroughPhases` until it has toggled twice. The
values sent are `green` then `red`, the light is `red`, and a consumer that
then calls `receive()` twice gets `red` first and `green` second: the latest
value comes out first, and nothing is left pending. -/
theorem C5_scenario_latest_first (ticksPerSecond firstDraw start : Int) (ticks : List Tick)
    (h : (cycleThroughPhases ticksPerSecond TrafficLight.new firstDraw start ticks).2.2.length = 2) :
    (cycleThroughPhases ticksPerSecond TrafficLight.new firstDraw start ticks).2.2 = [green, red] ∧
    (cycleThroughPhases ticksPerSecond TrafficLight.new firstDraw start ticks).1._currentPhase = red ∧
    receiveTimes 2
        (cycleThroughPhases ticksPerSecond TrafficLight.new firstDraw start ticks).1._queueMgr
      = some ([red, green], { _queue := [] }) := by
  obtain ⟨h1, h2, h3⟩ := TrafficLight.cycleLoop_sent ticksPerSecond TrafficLight.new
    { cycleDuration := firstDraw, lastUpdate := start } ticks
  unfold cycleThroughPhases at h ⊢
  have hs := chain_ne_length_two _ h1 h
  rw [hs] at h2 h3
  refine ⟨hs, by rw [h2]; rfl, ?_⟩
  have hq : (cycleLoop ticksPerSecond TrafficLight.new
      { cycleDuration := firstDraw, lastUpdate := start } ticks).1._queueMgr
        = { _queue := [green, red] } := by
    cases hm : (cycleLoop ticksPerSecond TrafficLight.new
      { cycleDuration := firstDraw, lastUpdate := start } ticks).1._queueMgr with
    | mk qq =>
      rw [hm] at h3
      simp only [TrafficLight.new, List.nil_append] at h3
      rw [h3]
  rw [hq]
  rfl

/-- Witness of C5: dwell of one second throughout, clock in seconds, readings
at 1 and 2. -/
theorem C5_scenario_latest_first_witness :
    (cycleThroughPhases 1 TrafficLight.new 1 0 [⟨1, 1, 1⟩, ⟨2, 1, 2⟩]).2.2 = [green, red] ∧
    (cycleThroughPhases 1 TrafficLight.new 1 0 [⟨1, 1, 1⟩, ⟨2, 1, 2⟩]).1._currentPhase = red ∧
    receiveTimes 2 (cycleThroughPhases 1 TrafficLight.new 1 0 [⟨1, 1, 1⟩, ⟨2, 1, 2⟩]).1._queueMgr
      = some ([red, green], { _queue := [] }) :=
  C5_scenario_latest_first 1 1 0 [⟨1, 1, 1⟩, ⟨2, 1, 2⟩] (by decide)

/-- C5 fails as stated: with a dwell of one second and clock readings at 1 and
2 the light has toggled to `green` and back to `red` and sent both values;
two `receive()` calls then return `red`, `green`, which is not `green`, `red`. -/
theorem C5_counterexample :
    (cycleThroughPhases 1 TrafficLight.new 1 0 [⟨1, 1, 1⟩, ⟨2, 1, 2⟩]).2.2 = [green, red] ∧
    (receiveTimes 2
        (cycleThroughPhases 1 TrafficLight.new 1 0 [⟨1, 1, 1⟩, ⟨2, 1, 2⟩]).1._queueMgr).map Prod.fst
      = some [red, green] ∧
    (receiveTimes 2
        (cycleThroughPhases 1 TrafficLight.new 1 0 [⟨1, 1, 1⟩, ⟨2, 1, 2⟩]).1._queueMgr).map Prod.fst
      ≠ some [green, red] := by
  decide

end CycleClaims

/-! ## Entering on green -/

section EnterClaims

open Intersection TrafficLight TrafficLightPhase

/-- C7 (enter returns only on green). The loop at the end of
`addVehicleToQueue` returns with the record `e` exactly when: the phases it
read are a run of `red` values followed by one `green`, so the last phase read
before the return is `green`; they are the first values `getCurrentPhase()`
returned; after each `red` read it called `waitForGreen` once, and that call
received a run of `red` values ended by the `green` at which it returned,
taken from `received` in call order right where the call before it stopped;
after the `green` read it received nothing more. -/
theorem C7_enter_returns_on_green (reads received : List TrafficLightPhase) (e : Entry) :
    addVehicleToQueue_awaitGreen reads received = some e ↔
      (e.phasesRead = List.replicate e.waits.length red ++ [green] ∧
        e.phasesRead.getLast? = some green ∧
        e.phasesRead = reads.take (e.waits.length + 1) ∧
        (∀ seen ∈ e.waits, ∃ reds, (∀ x ∈ reds, x = red) ∧ seen = reds ++ [green] ∧
          ∀ rest, waitForGreen (seen ++ rest) = some (seen, rest)) ∧
        received = e.waits.flatten ++ e.unreceived) := by
  constructor
  · intro h
    induction reads generalizing received e with
    | nil => simp [addVehicleToQueue_awaitGreen] at h
    | cons phase reads ih =>
      cases phase with
      | green =>
        simp [addVehicleToQueue_awaitGreen] at h
        subst h
        simp
      | red =>
        simp only [addVehicleToQueue_awaitGreen, ne_eq, reduceCtorEq, not_false_eq_true,
          if_true] at h
        cases hw : waitForGreen received with
        | none => simp [hw] at h
        | some pr =>
          obtain ⟨seen, rest⟩ := pr
          simp only [hw] at h
          cases hr : addVehicleToQueue_awaitGreen reads rest with
          | none => simp [hr] at h
          | some e1 =>
            simp only [hr, Option.some.injEq] at h
            obtain ⟨h1, h2, h3, h4, h5⟩ := ih rest e1 hr
            obtain ⟨reds, hreds, hseen, hrec⟩ := (TrafficLight.waitForGreen_some _ _ _).1 hw
            subst h
            refine ⟨?_, ?_, ?_, ?_, ?_⟩
            · simp only [h1, List.length_cons, List.replicate_succ, List.cons_append]
            · rw [h1] at h2 ⊢
              rw [List.getLast?_cons, h2]
              rfl
            · simp only [List.length_cons, List.take_succ_cons]
              rw [← h3]
            · intro s hs
              rcases List.mem_cons.1 hs with hs | hs
              · subst hs
                exact ⟨reds, hreds, hseen, fun r =>
                  (TrafficLight.waitForGreen_some _ _ _).2 ⟨reds, hreds, hseen, rfl⟩⟩
              · exact h4 s hs
            · simp only [List.flatten_cons, List.append_assoc]
              rw [← h5]
              exact hrec
  · rintro ⟨h1, -, h3, h4, h5⟩
    induction reads generalizing received e with
    | nil =>
      rw [h1] at h3
      simp at h3
    | cons phase reads ih =>
      obtain ⟨phasesRead, waits, unreceived⟩ := e
      simp only at h1 h3 h4 h5
      cases waits with
      | nil =>
        simp only [List.length_nil, List.replicate_zero, List.nil_append] at h1
        subst h1
        simp only [List.length_nil, Nat.zero_add, List.take_succ_cons, List.take_zero,
          List.cons.injEq, and_true] at h3
        subst h3
        simp only [List.flatten_nil, List.nil_append] at h5
        subst h5
        simp [addVehicleToQueue_awaitGreen]
      | cons seen ws =>
        simp only [List.length_cons, List.replicate_succ, List.cons_append] at h1
        subst h1
        simp only [List.length_cons, List.take_succ_cons, List.cons.injEq] at h3
        obtain ⟨hp, h3⟩ := h3
        subst hp
        obtain ⟨reds, hreds, hseen, hwait⟩ := h4 seen (List.mem_cons_self _ _)
        simp only [List.flatten_cons, List.append_assoc] at h5
        have hw : waitForGreen received = some (seen, ws.flatten ++ unreceived) := by
          rw [h5]
          exact hwait _
        have hr := ih (ws.flatten ++ unreceived)
          ⟨List.replicate ws.length red ++ [green], ws, unreceived⟩ rfl h3
          (fun s hs => h4 s (List.mem_cons_of_mem _ hs)) rfl
        simp only [addVehicleToQueue_awaitGreen, ne_eq, reduceCtorEq, not_false_eq_true,
          if_true, hw, hr]

/-- Witness of C7: the light reads `red`, `waitForGreen` receives `red` then
`green`, the next read is `green`; one value stays unreceived. -/
theorem C7_enter_returns_on_green_witness :
    addVehicleToQueue_awaitGreen [red, green, red] [red, green, red]
      = some ⟨[red, green], [[red, green]], [red]⟩ ∧
    (([red, green] : List TrafficLightPhase) = List.replicate 1 red ++ [green] ∧
      ([red, green] : List TrafficLightPhase).getLast? = some green ∧
      [red, green] = ([red, green, red] : List TrafficLightPhase).take (1 + 1) ∧
      (∀ seen ∈ [[red, green]], ∃ reds, (∀ x ∈ reds, x = red) ∧ seen = reds ++ [green] ∧
        ∀ rest, waitForGreen (seen ++ rest) = some (seen, rest)) ∧
      ([red, green, red] : List TrafficLightPhase) = [[red, green]].flatten ++ [red]) :=
  ⟨rfl, (C7_enter_returns_on_green [red, green, red] [red, green, red]
    ⟨[red, green], [[red, green]], [red]⟩).1 rfl⟩

end EnterClaims

/-! ## Runs of the admission loop -/

section AdmissionLemmas

variable {V P : Type}

open WaitingVehicles Intersection

theorem Intersection.admits_iff (i : Intersection V P) :
    i.admits = true ↔ i._waitingVehicles.getSize > 0 ∧ i._isBlocked = false := by
  simp [admits]

/-- With both vectors of equal length, an iteration of the admission loop that
passes the test releases the front entry; one that fails it does nothing. -/
theorem Intersection.processVehicleQueue_paired (i : Intersection V P)
    (hp : i._waitingVehicles._vehicles.length = i._waitingVehicles._promises.length) :
    (i.admits = false ∧ i.processVehicleQueue = some (none, i)) ∨
    (i.admits = true ∧ ∃ v vs p ps, i._waitingVehicles = ⟨v :: vs, p :: ps⟩ ∧
      i.processVehicleQueue
        = some (some ⟨p, v⟩, { i with _isBlocked := true, _waitingVehicles := ⟨vs, ps⟩ })) := by
  cases ha : i.admits with
  | false =>
    left
    exact ⟨rfl, by simp [processVehicleQueue, ha]⟩
  | true =>
    right
    refine ⟨rfl, ?_⟩
    have hpos := toInt_pos_imp _ ((Intersection.admits_iff i).1 ha).1
    obtain ⟨streets, ⟨vs, ps⟩, light, blocked⟩ := i
    cases vs with
    | nil => simp at hpos
    | cons v vs =>
      cases ps with
      | nil => simp at hp
      | cons p ps =>
        refine ⟨v, vs, p, ps, rfl, ?_⟩
        simp only [processVehicleQueue, ha, if_true, setIsBlocked, WaitingVehicles.permit_cons]

theorem Sim.step_paired (s : Sim V P) (st : Step V P) (hp : Sim.Paired s) :
    ∃ s1, Sim.step s st = some s1 ∧ Sim.Paired s1 := by
  cases st with
  | pushBack v p =>
    refine ⟨{ s with inter := s.inter.addVehicleToQueue_enqueue v p }, rfl, ?_⟩
    simp only [Sim.Paired, addVehicleToQueue_enqueue, WaitingVehicles.pushBack, List.length_append,
      List.length_singleton] at hp ⊢
    omega
  | vehicleHasLeft v =>
    exact ⟨{ inter := s.inter.vehicleHasLeft v, log := s.log ++ [Event.left v] }, rfl, hp⟩
  | processVehicleQueue =>
    rcases Intersection.processVehicleQueue_paired s.inter hp with ⟨_, h⟩ | ⟨_, v, vs, p, ps, hw, h⟩
    · refine ⟨Sim.mk s.inter (s.log ++ []), ?_, hp⟩
      simp only [Sim.step, h, Option.toList, List.map_nil]
    · refine ⟨Sim.mk { s.inter with _isBlocked := true, _waitingVehicles := ⟨vs, ps⟩ }
          (s.log ++ [Event.released ⟨p, v⟩]), ?_, ?_⟩
      · simp only [Sim.step, h, Option.toList, List.map_cons, List.map_nil]
      · simp only [Sim.Paired, hw, List.length_cons] at hp ⊢
        omega

theorem Sim.run_paired (s : Sim V P) (steps : List (Step V P)) (hp : Sim.Paired s) :
    ∃ s1, Sim.run s steps = some s1 ∧ Sim.Paired s1 := by
  induction steps generalizing s with
  | nil => exact ⟨s, rfl, hp⟩
  | cons st steps ih =>
    obtain ⟨s1, h1, hp1⟩ := Sim.step_paired s st hp
    obtain ⟨s2, h2, hp2⟩ := ih s1 hp1
    exact ⟨s2, by simp only [Sim.run, h1, h2], hp2⟩

theorem Sim.init_paired : Sim.Paired (Sim.init : Sim V P) := rfl

end AdmissionLemmas

section AdmissionClaims

variable {V P : Type}

open WaitingVehicles Intersection

/-- C10 (release precondition). Every sequence of `pushBack`, admission-loop
iterations and `vehicleHasLeft` calls on a newly constructed intersection runs
through, and in the state `s` it reaches the next iteration of the admission
loop is defined; if its test passes, then `getSize() > 0`, `_isBlocked` is
`false` before it is set to `true`, both vectors of the gate are non-empty,
and the iteration releases the front entry. -/
theorem C10_release_precondition (steps : List (Step V P)) :
    ∃ s : Sim V P, Sim.run Sim.init steps = some s ∧
      (∃ out, s.inter.processVehicleQueue = some out) ∧
      (s.inter.admits = true →
        s.inter._waitingVehicles.getSize > 0 ∧ s.inter._isBlocked = false ∧
        ∃ v vs p ps, s.inter._waitingVehicles = ⟨v :: vs, p :: ps⟩ ∧
          s.inter.processVehicleQueue
            = some (some ⟨p, v⟩,
                { s.inter with _isBlocked := true, _waitingVehicles := ⟨vs, ps⟩ })) := by
  obtain ⟨s, hrun, hp⟩ := Sim.run_paired (Sim.init : Sim V P) steps Sim.init_paired
  refine ⟨s, hrun, ?_, ?_⟩
  · rcases Intersection.processVehicleQueue_paired s.inter hp with ⟨_, h⟩ | ⟨_, v, vs, p, ps, _, h⟩
    · exact ⟨_, h⟩
    · exact ⟨_, h⟩
  · intro ha
    have h2 := (Intersection.admits_iff s.inter).1 ha
    rcases Intersection.processVehicleQueue_paired s.inter hp with ⟨hf, _⟩ | ⟨_, h⟩
    · rw [ha] at hf
      cases hf
    · exact ⟨h2.1, h2.2, h⟩

end AdmissionClaims

/-! ## Single occupancy -/

section OccupancyLemmas

variable {V P : Type} [DecidableEq V]

open WaitingVehicles Intersection

theorem Sim.inFlight_released (log : List (Event V P)) (r : Released V P) :
    Sim.inFlight (log ++ [Event.released r]) = Sim.inFlight log ++ [r.vehicle] := by
  simp [Sim.inFlight, List.foldl_append]

theorem Sim.inFlight_left (log : List (Event V P)) (v : V) :
    Sim.inFlight (log ++ [Event.left v])
      = (Sim.inFlight log).filter (fun x => decide (x ≠ v)) := by
  simp [Sim.inFlight, List.foldl_append]

/-- A step keeps `Paired` and, when a `vehicleHasLeft` is only called for a
vehicle in flight, `Occupied`. -/
theorem Sim.step_occupied (s s1 : Sim V P) (st : Step V P) (hp : Sim.Paired s)
    (ho : Sim.Occupied s) (hs : Sim.step s st = some s1)
    (hg : ∀ v, st = Step.vehicleHasLeft v → v ∈ Sim.inFlight s.log) :
    Sim.Occupied s1 := by
  cases st with
  | pushBack v p =>
    simp only [Sim.step, Option.some.injEq] at hs
    subst hs
    exact ho
  | vehicleHasLeft v =>
    simp only [Sim.step, Option.some.injEq] at hs
    subst hs
    have hv := hg v rfl
    left
    refine ⟨rfl, ?_⟩
    rcases ho with ⟨_, h⟩ | ⟨_, w, h⟩
    · rw [h] at hv
      simp at hv
    · rw [h] at hv
      have hvw : v = w := by simpa using hv
      subst hvw
      simp only [Sim.inFlight_left, h]
      simp
  | processVehicleQueue =>
    rcases Intersection.processVehicleQueue_paired s.inter hp with ⟨_, h⟩ | ⟨ha, v, vs, p, ps, hw, h⟩
    · simp only [Sim.step, h, Option.toList, List.map_nil, List.append_nil,
        Option.some.injEq] at hs
      subst hs
      exact ho
    · simp only [Sim.step, h, Option.toList, List.map_cons, List.map_nil,
        Option.some.injEq] at hs
      subst hs
      have hb := ((Intersection.admits_iff s.inter).1 ha).2
      right
      refine ⟨rfl, v, ?_⟩
      rcases ho with ⟨_, h0⟩ | ⟨h1, _⟩
      · simp only [Sim.inFlight_released, h0, List.nil_append]
      · rw [hb] at h1
        cases h1

theorem Sim.run_occupied (s s1 : Sim V P) (steps : List (Step V P)) (hp : Sim.Paired s)
    (ho : Sim.Occupied s) (hs : Sim.run s steps = some s1)
    (hg : Sim.leavesInFlight s steps = true) :
    Sim.Occupied s1 := by
  induction steps generalizing s with
  | nil =>
    simp only [Sim.run, Option.some.injEq] at hs
    subst hs
    exact ho
  | cons st steps ih =>
    obtain ⟨s2, h2, hp2⟩ := Sim.step_paired s st hp
    simp only [Sim.run, h2] at hs
    simp only [Sim.leavesInFlight, h2, Bool.and_eq_true] at hg
    refine ih s2 hp2 (Sim.step_occupied s s2 st hp ho h2 ?_) hs hg.2
    intro v hv
    subst hv
    simpa using hg.1

theorem Sim.init_occupied : Sim.Occupied (Sim.init : Sim V P) :=
  Or.inl ⟨rfl, rfl⟩

end OccupancyLemmas

section OccupancyClaims

variable {V P : Type} [DecidableEq V]

/-- C2 (single occupancy), as the code has it. In every state reached from a
newly constructed intersection by `pushBack`, admission-loop iterations and
`vehicleHasLeft` calls, provided each `vehicleHasLeft` is called for a vehicle
that has been released and not reported as having left since: at most one
vehicle has been released and has not yet had `vehicleHasLeft` called for it,
and `_isBlocked` is `true` exactly when there is one. -/
theorem C2_single_occupancy (steps : List (Step V P)) (s : Sim V P)
    (hrun : Sim.run Sim.init steps = some s)
    (hleave : Sim.leavesInFlight Sim.init steps = true) :
    (Sim.inFlight s.log).length ≤ 1 ∧
    (s.inter._isBlocked = true ↔ (Sim.inFlight s.log).length = 1) := by
  have ho := Sim.run_occupied Sim.init s steps Sim.init_paired Sim.init_occupied hrun hleave
  rcases ho with ⟨hb, hf⟩ | ⟨hb, v, hf⟩
  · simp [hb, hf]
  · simp [hb, hf]

/-- Witness of C2: two vehicles arrive, the first is released, leaves, and the
second is released; only the second is in flight. -/
theorem C2_single_occupancy_witness :
    (Sim.inFlight (⟨⟨[], ⟨[], []⟩, TrafficLight.new, true⟩,
        [Event.released ⟨11, 1⟩, Event.left 1, Event.released ⟨12, 2⟩]⟩ : Sim Nat Nat).log).length ≤ 1 ∧
    ((⟨⟨[], ⟨[], []⟩, TrafficLight.new, true⟩,
        [Event.released ⟨11, 1⟩, Event.left 1, Event.released ⟨12, 2⟩]⟩ : Sim Nat Nat).inter._isBlocked
        = true ↔
      (Sim.inFlight (⟨⟨[], ⟨[], []⟩, TrafficLight.new, true⟩,
        [Event.released ⟨11, 1⟩, Event.left 1, Event.released ⟨12, 2⟩]⟩ : Sim Nat Nat).log).length = 1) :=
  C2_single_occupancy
    [Step.pushBack 1 11, Step.pushBack 2 12, Step.processVehicleQueue, Step.vehicleHasLeft 1,
      Step.processVehicleQueue]
    ⟨⟨[], ⟨[], []⟩, TrafficLight.new, true⟩,
      [Event.released ⟨11, 1⟩, Event.left 1, Event.released ⟨12, 2⟩]⟩
    (by decide) (by decide)

/-- C2 fails as stated: three vehicles arrive, vehicle 1 is released,
`vehicleHasLeft` is called for vehicle 3, which is still waiting, and the next
iteration releases vehicle 2. Vehicles 1 and 2 have both been released and
`vehicleHasLeft` has been called for neither. -/
theorem C2_counterexample :
    (Sim.run (Sim.init : Sim Nat Nat)
        [Step.pushBack 1 11, Step.pushBack 2 12, Step.pushBack 3 13, Step.processVehicleQueue,
          Step.vehicleHasLeft 3, Step.processVehicleQueue]).map (fun s => Sim.inFlight s.log)
      = some [1, 2] ∧
    ¬ ∀ s : Sim Nat Nat,
      Sim.run (Sim.init : Sim Nat Nat)
        [Step.pushBack 1 11, Step.pushBack 2 12, Step.pushBack 3 13, Step.processVehicleQueue,
          Step.vehicleHasLeft 3, Step.processVehicleQueue] = some s →
      (Sim.inFlight s.log).length ≤ 1 := by
  refine ⟨by decide, fun h => ?_⟩
  have h2 := h
    ⟨⟨[], ⟨[3], [13]⟩, TrafficLight.new, true⟩,
      [Event.released ⟨11, 1⟩, Event.left 3, Event.released ⟨12, 2⟩]⟩ (by decide)
  revert h2
  decide

end OccupancyClaims

end TrafficSim
